import Mathlib

/-!
Verification of the `indy-utils` key representation and encoding module
(`src/indy-utils/src/keys/mod.rs`).

Rust strings are embedded as `List Char`, byte buffers as `List Nat`
(each entry one byte), fallible operations as `Except`, and the Rust
panic of an out-of-range slice as the `none` case of an `Option`.
-/

deriving instance DecidableEq for Except

/-- Modelled from the spec: `AlgorithmTag` (Rust `KeyType`, in the missing
`types.rs`) is a string-valued identifier; the empty string is the
"unspecified/default" value; `From<&str>` wraps the string; equality is
string equality. -/
abbrev KeyType := List Char

/-- Modelled from the spec: `EncodingTag` (Rust `KeyEncoding`, in the missing
`types.rs`) is a string-valued identifier; the empty string is the default. -/
abbrev KeyEncoding := List Char

/-- Modelled from the spec: the default (unspecified) algorithm tag is the
empty string. -/
def keyTypeDefault : KeyType := []

/-- Modelled from the spec: the default (unspecified) encoding tag is the
empty string. -/
def keyEncodingDefault : KeyEncoding := []

/-- Modelled from the spec: the defined `ED25519` algorithm constant. -/
def ED25519 : KeyType := ['e', 'd', '2', '5', '5', '1', '9']

/-- Modelled from the spec: the defined `X25519` algorithm constant. -/
def X25519 : KeyType := ['x', '2', '5', '5', '1', '9']

/-- Modelled from the spec: the defined `BASE58` encoding constant. -/
def BASE58 : KeyEncoding := ['b', 'a', 's', 'e', '5', '8']

/-- Modelled from the spec: `KeyType::from(&str)` wraps the string opaquely. -/
def keyTypeFrom (s : List Char) : KeyType := s

/-- Modelled from the spec: `KeyEncoding::from(&str)` wraps the string. -/
def keyEncodingFrom (s : List Char) : KeyEncoding := s

/-- Rust `ConversionError`, carried as its message string. -/
abbrev ConversionError := List Char

/-- Rust `ValidationError`, carried as its message string. -/
abbrev ValidationError := List Char

/-- Error message of `base58::decode` on input outside the alphabet. -/
def invalidBase58 : ConversionError :=
  ['i', 'n', 'v', 'a', 'l', 'i', 'd', ' ', 'b', 'a', 's', 'e', '5', '8']

/-- Message "Destination required for short verkey" (`MissingDestination`). -/
def destinationRequired : ConversionError :=
  ['d', 'e', 's', 't', ' ', 'r', 'e', 'q', 'u', 'i', 'r', 'e', 'd']

/-- Message "Unsupported key type" (`UnsupportedAlgorithm`). -/
def unsupportedKeyType : ConversionError :=
  ['u', 'n', 's', 'u', 'p', ' ', 'k', 'e', 'y', ' ', 't', 'y', 'p', 'e']

/-- Message "Unsupported verkey format" (`UnsupportedEncoding`). -/
def unsupportedVerkeyFormat : ConversionError :=
  ['u', 'n', 's', 'u', 'p', ' ', 'f', 'o', 'r', 'm', 'a', 't']

/-- Message "Invalid key length" (`InvalidKeyLength`). -/
def invalidKeyLength : ValidationError :=
  ['i', 'n', 'v', 'a', 'l', 'i', 'd', ' ', 'l', 'e', 'n']

/-- Modelled from the spec: the base58 alphabet of the byte codec
(the bitcoin alphabet: digits and letters without 0, O, I, l). -/
def b58Chars : List Char :=
  ['1', '2', '3', '4', '5', '6', '7', '8', '9',
   'A', 'B', 'C', 'D', 'E', 'F', 'G', 'H', 'J', 'K', 'L', 'M', 'N',
   'P', 'Q', 'R', 'S', 'T', 'U', 'V', 'W', 'X', 'Y', 'Z',
   'a', 'b', 'c', 'd', 'e', 'f', 'g', 'h', 'i', 'j', 'k', 'm', 'n',
   'o', 'p', 'q', 'r', 's', 't', 'u', 'v', 'w', 'x', 'y', 'z']

/-- Index of a character in a list, or `none` when absent. -/
def b58IndexAux : List Char → Char → Nat → Option Nat
  | [], _, _ => none
  | d :: ds, c, i => if d = c then some i else b58IndexAux ds c (i + 1)

/-- Modelled from the spec: value of one base58 digit; `none` for a
character outside the alphabet (decode fails on those). -/
def b58DigitOf (c : Char) : Option Nat := b58IndexAux b58Chars c 0

/-- Decode every character of the input to its digit value; `none` as soon
as one character is outside the alphabet. -/
def decodeDigits : List Char → Option (List Nat)
  | [] => some []
  | c :: cs =>
    match b58DigitOf c, decodeDigits cs with
    | some d, some ds => some (d :: ds)
    | _, _ => none

/-- Big-endian base-256 digits of a natural number (fuel-driven; the fuel
`n` itself always suffices). `[]` for zero. -/
def natToBytesAux : Nat → Nat → List Nat
  | 0, _ => []
  | fuel + 1, n => if n = 0 then [] else natToBytesAux fuel (n / 256) ++ [n % 256]

/-- Big-endian base-256 digits of a natural number, `[]` for zero. -/
def natToBytes (n : Nat) : List Nat := natToBytesAux n n

/-- Big-endian base-58 digit characters of a natural number, `[]` for zero. -/
def natToB58Aux : Nat → Nat → List Char
  | 0, _ => []
  | fuel + 1, n =>
    if n = 0 then [] else natToB58Aux fuel (n / 58) ++ [b58Chars.getD (n % 58) '1']

/-- Big-endian base-58 digit characters of a natural number. -/
def natToB58 (n : Nat) : List Char := natToB58Aux n n

namespace base58

/-- Modelled from the spec: `base58::decode` of the byte codec — fails when
any character is outside the alphabet, otherwise each leading '1' is a
leading zero byte and the rest is the big-endian base-58 value. -/
def decode (s : List Char) : Except ConversionError (List Nat) :=
  match decodeDigits s with
  | none => Except.error invalidBase58
  | some ds =>
    Except.ok
      (List.replicate (ds.takeWhile (· = 0)).length 0 ++
        natToBytes (ds.foldl (fun a d => a * 58 + d) 0))

/-- Modelled from the spec: `base58::encode` of the byte codec — each
leading zero byte becomes '1', the rest is the big-endian base-58 value. -/
def encode (bs : List Nat) : List Char :=
  List.replicate (bs.takeWhile (· = 0)).length '1' ++
    natToB58 (bs.foldl (fun a b => a * 256 + b) 0)

end base58

/-- Rust `SignKey { key: Vec<u8>, alg: KeyType }`. -/
structure SignKey where
  key : List Nat
  alg : KeyType
deriving DecidableEq, Repr

/-- Rust `VerKey { key: Vec<u8>, alg: KeyType }`. -/
structure VerKey where
  key : List Nat
  alg : KeyType
deriving DecidableEq, Repr

/-- Rust `EncodedVerKey { key: String, alg: KeyType, enc: KeyEncoding }`. -/
structure EncodedVerKey where
  key : List Char
  alg : KeyType
  enc : KeyEncoding
deriving DecidableEq, Repr

/-- Rust `SignKey::new`: wraps the bytes verbatim, `alg.unwrap_or_default()`. -/
def SignKey.new (key : List Nat) (alg : Option KeyType) : SignKey :=
  ⟨key, alg.getD keyTypeDefault⟩

/-- Rust `VerKey::new`: wraps the bytes verbatim, `alg.unwrap_or_default()`. -/
def VerKey.new (key : List Nat) (alg : Option KeyType) : VerKey :=
  ⟨key, alg.getD keyTypeDefault⟩

/-- Rust `EncodedVerKey::new`: wraps the string, with defaults for absent tags. -/
def EncodedVerKey.new (key : List Char) (alg : Option KeyType)
    (enc : Option KeyEncoding) : EncodedVerKey :=
  ⟨key, alg.getD keyTypeDefault, enc.getD keyEncodingDefault⟩

/-- The Rust slice `&l[i..]`: in range (`some`) exactly when `i <= l.len()`,
out of range (`none`, a Rust panic) otherwise. -/
def sliceFrom (l : List Nat) (i : Nat) : Option (List Nat) :=
  if i ≤ l.length then some (l.drop i) else none

/-- Rust `SignKey::public_key`: for `ED25519` slices `&self.key[32..]` into a new
`VerKey`; other algorithms fail. The outer `Option` models the Rust panic
of an out-of-range slice (`none`). -/
def SignKey.public_key (sk : SignKey) : Option (Except ConversionError VerKey) :=
  if sk.alg = ED25519 then
    (sliceFrom sk.key 32).map fun b => Except.ok (VerKey.new b (some sk.alg))
  else some (Except.error unsupportedKeyType)

/-- Rust `SignKey::key_bytes`: clones the bytes. -/
def SignKey.key_bytes (sk : SignKey) : List Nat := sk.key

/-- Rust `VerKey::key_bytes`: clones the bytes. -/
def VerKey.key_bytes (v : VerKey) : List Nat := v.key

/-- Rust `impl Validatable for VerKey`: success iff the byte length is 32. -/
def VerKey.validate (v : VerKey) : Except ValidationError Unit :=
  if v.key_bytes.length = 32 then Except.ok () else Except.error invalidKeyLength

/-- Split a string at its first colon (`splitn(2, ':')`): `some (h, t)` with
the part before and after the first colon when one exists, `none` when the
string contains no colon. -/
def splitOnceAux : List Char → Option (List Char × List Char)
  | [] => none
  | c :: cs =>
    if c = ':' then some ([], cs)
    else (splitOnceAux cs).map fun p => (c :: p.1, p.2)

/-- The colon-splitting step of `EncodedVerKey::from_str_qualified`
(source lines 255-264): if the key contains a colon, split on the first
colon; a non-empty tail overrides the algorithm, an empty tail leaves it
untouched. -/
def splitKeyAlg (key : List Char) (alg : Option KeyType) :
    List Char × Option KeyType :=
  match splitOnceAux key with
  | none => (key, alg)
  | some (head, tail) =>
    (head, if tail = [] then alg else some (keyTypeFrom tail))

/-- Rust `EncodedVerKey::from_str_qualified` (source lines 249-276). -/
def EncodedVerKey.from_str_qualified (key : List Char) (dest : Option (List Char))
    (alg : Option KeyType) (enc : Option KeyEncoding) :
    Except ConversionError EncodedVerKey :=
  let p := splitKeyAlg key alg
  let key := p.1
  let alg := p.2
  if key.head? = some '~' then
    match dest with
    | none => Except.error destinationRequired
    | some d => do
      let result ← base58.decode d
      let e ← base58.decode (key.drop 1)
      Except.ok (EncodedVerKey.new (base58.encode (result ++ e)) alg enc)
  else
    Except.ok (EncodedVerKey.new key alg enc)

/-- Rust `EncodedVerKey::from_str`: qualified parse with no destination and no
default algorithm or encoding. -/
def EncodedVerKey.from_str (key : List Char) : Except ConversionError EncodedVerKey :=
  EncodedVerKey.from_str_qualified key none none none

/-- Rust `EncodedVerKey::long_form`: the key, a colon, then the algorithm tag. -/
def EncodedVerKey.long_form (k : EncodedVerKey) : List Char :=
  k.key ++ ':' :: k.alg

/-- Rust `impl Display for EncodedVerKey`: the key alone when the algorithm is
the default tag, otherwise the long form. -/
def EncodedVerKey.display (k : EncodedVerKey) : List Char :=
  if k.alg = keyTypeDefault then k.key else k.long_form

/-- Rust `EncodedVerKey::key_bytes`: decodes under the encoding; only `BASE58`
is supported. -/
def EncodedVerKey.key_bytes (k : EncodedVerKey) :
    Except ConversionError (List Nat) :=
  if k.enc = BASE58 then base58.decode k.key
  else Except.error unsupportedVerkeyFormat

/-- Rust `EncodedVerKey::as_base58`: the key itself when already `BASE58`,
otherwise decode via `key_bytes` and re-encode. -/
def EncodedVerKey.as_base58 (k : EncodedVerKey) :
    Except ConversionError EncodedVerKey :=
  if k.enc = BASE58 then Except.ok k
  else do
    let bs ← k.key_bytes
    Except.ok (EncodedVerKey.new (base58.encode bs) (some k.alg) (some BASE58))

/-- Rust `impl Validatable for EncodedVerKey`: decode (`?` propagates the
conversion error) and check the length is 32. -/
def EncodedVerKey.validate (k : EncodedVerKey) : Except ValidationError Unit :=
  match k.key_bytes with
  | Except.error e => Except.error e
  | Except.ok bytes =>
    if bytes.length = 32 then Except.ok () else Except.error invalidKeyLength

/-- Rust `impl Zeroize for SignKey`: zero every byte of the buffer and reset the
algorithm tag to `KeyType::from("")`. -/
def SignKey.zeroize (sk : SignKey) : SignKey :=
  ⟨sk.key.map (fun _ => 0), keyTypeFrom []⟩

/-- Rust `impl Drop for SignKey`: calls `zeroize`. -/
def SignKey.dispose (sk : SignKey) : SignKey := sk.zeroize

/-- Rust `impl Zeroize for VerKey`. -/
def VerKey.zeroize (v : VerKey) : VerKey :=
  ⟨v.key.map (fun _ => 0), keyTypeFrom []⟩

/-- Rust `impl Drop for VerKey`: calls `zeroize`. -/
def VerKey.dispose (v : VerKey) : VerKey := v.zeroize

/-- Rust `impl Zeroize for EncodedVerKey`: zero the string buffer, reset both
tags via `from("")`. -/
def EncodedVerKey.zeroize (k : EncodedVerKey) : EncodedVerKey :=
  ⟨k.key.map (fun _ => Char.ofNat 0), keyTypeFrom [], keyEncodingFrom []⟩

/-- Rust `impl Drop for EncodedVerKey`: calls `zeroize`. -/
def EncodedVerKey.dispose (k : EncodedVerKey) : EncodedVerKey := k.zeroize

/-- Rust `build_full_verkey`: qualified parse with the given destination. -/
def build_full_verkey (dest : List Char) (key : List Char) :
    Except ConversionError EncodedVerKey :=
  EncodedVerKey.from_str_qualified key (some dest) none none

/-! ## Helper lemmas -/

theorem splitOnceAux_eq_none (s : List Char) (h : ':' ∉ s) :
    splitOnceAux s = none := by
  induction s with
  | nil => rfl
  | cons c cs ih =>
    have hc : ¬(c = ':') := fun he => h (he ▸ List.mem_cons_self c cs)
    have hcs : ':' ∉ cs := fun hm => h (List.mem_cons_of_mem _ hm)
    simp [splitOnceAux, hc, ih hcs]

theorem splitOnceAux_none_not_mem (s : List Char) (h : splitOnceAux s = none) :
    ':' ∉ s := by
  induction s with
  | nil => simp
  | cons c cs ih =>
    simp only [splitOnceAux] at h
    by_cases hc : c = ':'
    · rw [if_pos hc] at h; cases h
    · rw [if_neg hc] at h
      have hn : splitOnceAux cs = none := by
        cases hsc : splitOnceAux cs with
        | none => rfl
        | some p => rw [hsc] at h; simp at h
      intro hm
      rcases List.mem_cons.mp hm with he | hm'
      · exact hc he.symm
      · exact ih hn hm'

theorem splitOnceAux_append (h t : List Char) (hh : ':' ∉ h) :
    splitOnceAux (h ++ ':' :: t) = some (h, t) := by
  induction h with
  | nil => simp [splitOnceAux]
  | cons c cs ih =>
    have hc : ¬(c = ':') := fun he => hh (he ▸ List.mem_cons_self c cs)
    have hcs : ':' ∉ cs := fun hm => hh (List.mem_cons_of_mem _ hm)
    simp [splitOnceAux, hc, ih hcs]

theorem splitOnceAux_some (s h t : List Char)
    (he : splitOnceAux s = some (h, t)) :
    ':' ∉ h ∧ s = h ++ ':' :: t := by
  induction s generalizing h t with
  | nil => cases he
  | cons c cs ih =>
    by_cases hc : c = ':'
    · subst hc
      have he' : some (([] : List Char), cs) = some (h, t) := by
        rw [← he]; simp [splitOnceAux]
      injection he' with hpair
      injection hpair with h1 h2
      subst h1; subst h2
      exact ⟨by simp, rfl⟩
    · simp only [splitOnceAux, if_neg hc, Option.map_eq_some'] at he
      obtain ⟨p, hp, hpe⟩ := he
      injection hpe with h1 h2
      obtain ⟨hc1, hc2⟩ := ih p.1 p.2 (by rw [hp])
      subst h2
      constructor
      · intro hm
        rw [← h1] at hm
        rcases List.mem_cons.mp hm with hx | hx
        · exact hc (hx.symm)
        · exact hc1 hx
      · rw [← h1, hc2]; rfl

theorem splitKeyAlg_fst_no_colon (key : List Char) (alg : Option KeyType) :
    ':' ∉ (splitKeyAlg key alg).1 := by
  unfold splitKeyAlg
  cases hsc : splitOnceAux key with
  | none => exact splitOnceAux_none_not_mem key hsc
  | some p => exact (splitOnceAux_some key p.1 p.2 (by rw [hsc])).1

theorem splitKeyAlg_snd_none (key : List Char) :
    (splitKeyAlg key none).2 = none ∨
      ∃ t, ¬(t = []) ∧ (splitKeyAlg key none).2 = some t := by
  unfold splitKeyAlg
  cases splitOnceAux key with
  | none => exact Or.inl rfl
  | some p =>
    by_cases ht : p.2 = []
    · exact Or.inl (by simp [ht])
    · exact Or.inr ⟨keyTypeFrom p.2, ht, by simp [ht]⟩

theorem splitKeyAlg_of_append (h t : List Char) (alg : Option KeyType)
    (hh : ':' ∉ h) :
    splitKeyAlg (h ++ ':' :: t) alg =
      (h, if t = [] then alg else some (keyTypeFrom t)) := by
  unfold splitKeyAlg
  rw [splitOnceAux_append h t hh]

theorem decodeDigits_some_no_colon (s : List Char) (ds : List Nat)
    (h : decodeDigits s = some ds) : ':' ∉ s := by
  induction s generalizing ds with
  | nil => simp
  | cons c cs ih =>
    intro hm
    simp only [decodeDigits] at h
    cases hd : b58DigitOf c with
    | none => rw [hd] at h; simp at h
    | some d =>
      cases hds : decodeDigits cs with
      | none => rw [hd, hds] at h; simp at h
      | some ds' =>
        rcases List.mem_cons.mp hm with he | hm'
        · rw [← he] at hd
          have hz : b58DigitOf ':' = none := by decide
          rw [hz] at hd; cases hd
        · exact ih ds' hds hm'

theorem decode_no_colon (s : List Char) (bs : List Nat)
    (h : base58.decode s = Except.ok bs) : ':' ∉ s := by
  unfold base58.decode at h
  cases hds : decodeDigits s with
  | none => rw [hds] at h; cases h
  | some ds => exact decodeDigits_some_no_colon s ds hds

/-! ## Claims -/

/-- C1: for every destination string `D` and suffix string `S` that both
decode under base58, parsing `'~' ++ S` with destination `D` via
`from_str_qualified` yields an `EncodedVerKey` whose text is the base58
encoding of `decode D ++ decode S`, in that order; no hypothesis bounds
the length of either part. -/
theorem claim_C1_short_form_expansion (D S : List Char) (db sb : List Nat)
    (hD : base58.decode D = Except.ok db) (hS : base58.decode S = Except.ok sb) :
    EncodedVerKey.from_str_qualified ('~' :: S) (some D) none none =
      Except.ok (EncodedVerKey.new (base58.encode (db ++ sb)) none none) := by
  have hnc : ':' ∉ S := decode_no_colon S sb hS
  have hnc2 : ':' ∉ '~' :: S := by
    intro hm
    rcases List.mem_cons.mp hm with he | hm'
    · exact absurd he (by decide)
    · exact hnc hm'
  have hsplit : splitKeyAlg ('~' :: S) none = ('~' :: S, none) := by
    unfold splitKeyAlg
    rw [splitOnceAux_eq_none _ hnc2]
  simp only [EncodedVerKey.from_str_qualified, hsplit]
  rw [if_pos (by rfl)]
  simp only [List.drop_succ_cons, List.drop_zero, hD, hS]
  rfl

/-- Witness for C1 at `D = "1"`, `S = "1"` (each decoding to `[0]`). -/
theorem claim_C1_short_form_expansion_witness :
    base58.decode ['1'] = Except.ok [0] ∧
    EncodedVerKey.from_str_qualified ('~' :: ['1']) (some ['1']) none none =
      Except.ok (EncodedVerKey.new (base58.encode ([0] ++ [0])) none none) :=
  ⟨by decide, claim_C1_short_form_expansion ['1'] ['1'] [0] [0] (by decide) (by decide)⟩

/-- C2: `from_str` splits only on the first colon — the five concrete
shapes of the claim, and in general a non-empty tail overrides the
supplied algorithm while an empty tail leaves it untouched. -/
theorem claim_C2_colon_splitting :
    EncodedVerKey.from_str ['f', 'o', 'o', ':', 'b', 'a', 'r', ':', 'b', 'a', 'z'] =
      Except.ok (EncodedVerKey.new ['f', 'o', 'o']
        (some ['b', 'a', 'r', ':', 'b', 'a', 'z']) none) ∧
    EncodedVerKey.from_str ['f', 'o', 'o', ':'] =
      Except.ok (EncodedVerKey.new ['f', 'o', 'o'] none none) ∧
    EncodedVerKey.from_str [':', 'b', 'a', 'r'] =
      Except.ok (EncodedVerKey.new [] (some ['b', 'a', 'r']) none) ∧
    EncodedVerKey.from_str [] = Except.ok (EncodedVerKey.new [] none none) ∧
    EncodedVerKey.from_str [':'] = Except.ok (EncodedVerKey.new [] none none) ∧
    ∀ (head tl : List Char) (dest : Option (List Char)) (alg : Option KeyType)
      (enc : Option KeyEncoding), ':' ∉ head → ¬(head.head? = some '~') →
      EncodedVerKey.from_str_qualified (head ++ ':' :: tl) dest alg enc =
        Except.ok (EncodedVerKey.new head
          (if tl = [] then alg else some (keyTypeFrom tl)) enc) := by
  refine ⟨by decide, by decide, by decide, by decide, by decide, ?_⟩
  intro head tl dest alg enc hnc hns
  have hsplit : splitKeyAlg (head ++ ':' :: tl) alg =
      (head, if tl = [] then alg else some (keyTypeFrom tl)) := by
    unfold splitKeyAlg
    rw [splitOnceAux_append head tl hnc]
  simp only [EncodedVerKey.from_str_qualified, hsplit]
  rw [if_neg hns]

/-- Witness for C2's general clause at `head = "a"`, `tail = "b"`. -/
theorem claim_C2_colon_splitting_witness :
    ':' ∉ (['a'] : List Char) ∧ ¬((['a'] : List Char).head? = some '~') ∧
    EncodedVerKey.from_str_qualified (['a'] ++ ':' :: ['b']) none none none =
      Except.ok (EncodedVerKey.new ['a'] (some (keyTypeFrom ['b'])) none) := by
  refine ⟨by decide, by decide, ?_⟩
  have h := claim_C2_colon_splitting.2.2.2.2.2 ['a'] ['b'] none none none
    (by decide) (by decide)
  simpa using h

/-- C4: when the key left by colon-splitting starts with `'~'` and no
destination is supplied, parsing fails with the missing-destination error
and produces no `EncodedVerKey`. -/
theorem claim_C4_missing_destination (key : List Char) (alg : Option KeyType)
    (enc : Option KeyEncoding)
    (h : (splitKeyAlg key alg).1.head? = some '~') :
    EncodedVerKey.from_str_qualified key none alg enc =
      Except.error destinationRequired := by
  simp only [EncodedVerKey.from_str_qualified]
  rw [if_pos h]

/-- Witness for C4 at the one-character key `"~"`. -/
theorem claim_C4_missing_destination_witness :
    (splitKeyAlg ['~'] none).1.head? = some '~' ∧
    EncodedVerKey.from_str_qualified ['~'] none none none =
      Except.error destinationRequired :=
  ⟨by decide, claim_C4_missing_destination ['~'] none none (by decide)⟩

/-- C5: parsing is idempotent through `long_form` for any input whose key
part (after colon-splitting) does not start with `'~'`: if `from_str s`
yields `k`, then `from_str k.long_form` yields the same `k`. -/
theorem claim_C5_parse_idempotent (s : List Char) (k : EncodedVerKey)
    (h1 : ¬((splitKeyAlg s none).1.head? = some '~'))
    (h2 : EncodedVerKey.from_str s = Except.ok k) :
    EncodedVerKey.from_str k.long_form = Except.ok k := by
  simp only [EncodedVerKey.from_str, EncodedVerKey.from_str_qualified] at h2
  rw [if_neg h1] at h2
  injection h2 with h2
  have hnc : ':' ∉ (splitKeyAlg s none).1 := splitKeyAlg_fst_no_colon s none
  rcases splitKeyAlg_snd_none s with halg | ⟨t, ht, halg⟩
  · have hk : k = EncodedVerKey.new (splitKeyAlg s none).1 none none := by
      rw [← h2, halg]
    have hlf : k.long_form = (splitKeyAlg s none).1 ++ ':' :: [] := by
      rw [hk]; rfl
    have hsplit : splitKeyAlg k.long_form none = ((splitKeyAlg s none).1, none) := by
      rw [hlf, splitKeyAlg_of_append _ _ _ hnc]
      simp
    simp only [EncodedVerKey.from_str, EncodedVerKey.from_str_qualified, hsplit]
    rw [if_neg h1, hk]
  · have hk : k = EncodedVerKey.new (splitKeyAlg s none).1 (some t) none := by
      rw [← h2, halg]
    have hlf : k.long_form = (splitKeyAlg s none).1 ++ ':' :: t := by
      rw [hk]; rfl
    have hsplit : splitKeyAlg k.long_form none =
        ((splitKeyAlg s none).1, some (keyTypeFrom t)) := by
      rw [hlf, splitKeyAlg_of_append _ _ _ hnc]
      simp [ht]
    simp only [EncodedVerKey.from_str, EncodedVerKey.from_str_qualified, hsplit]
    rw [if_neg h1, hk]
    rfl

/-- Witness for C5 at `s = "a:b"`. -/
theorem claim_C5_parse_idempotent_witness :
    ¬((splitKeyAlg ['a', ':', 'b'] none).1.head? = some '~') ∧
    EncodedVerKey.from_str ['a', ':', 'b'] =
      Except.ok (EncodedVerKey.new ['a'] (some ['b']) none) ∧
    EncodedVerKey.from_str (EncodedVerKey.new ['a'] (some ['b']) none).long_form =
      Except.ok (EncodedVerKey.new ['a'] (some ['b']) none) :=
  ⟨by decide, by decide,
    claim_C5_parse_idempotent ['a', ':', 'b']
      (EncodedVerKey.new ['a'] (some ['b']) none) (by decide) (by decide)⟩

/-- C3 counterexample: for a key whose encoding is not `BASE58` (here the
opaque tag `"raw"`), `as_base58` does not re-encode into `BASE58` — it
fails with the unsupported-format error, because `key_bytes` supports
only `BASE58`. -/
theorem claim_C3_counterexample :
    EncodedVerKey.as_base58
        (EncodedVerKey.new ['a'] none (some ['r', 'a', 'w'])) =
      Except.error unsupportedVerkeyFormat := by
  decide

/-- C3 amended: `as_base58` returns the key unchanged when its encoding is
already `BASE58`; for every other encoding it fails with the
unsupported-format error (the re-encoding branch decodes via `key_bytes`,
which supports only `BASE58`). -/
theorem claim_C3_as_base58 (k : EncodedVerKey) :
    (k.enc = BASE58 → k.as_base58 = Except.ok k) ∧
    (¬(k.enc = BASE58) →
      k.as_base58 = Except.error unsupportedVerkeyFormat) := by
  constructor
  · intro h
    simp only [EncodedVerKey.as_base58]
    rw [if_pos h]
  · intro h
    simp only [EncodedVerKey.as_base58]
    rw [if_neg h]
    have hkb : k.key_bytes = Except.error unsupportedVerkeyFormat := by
      simp only [EncodedVerKey.key_bytes]
      rw [if_neg h]
    rw [hkb]
    rfl

/-- Witness for C3 (amended) at one `BASE58` key and one default-encoded
key. -/
theorem claim_C3_as_base58_witness :
    (EncodedVerKey.new ['b'] none (some BASE58)).enc = BASE58 ∧
    EncodedVerKey.as_base58 (EncodedVerKey.new ['b'] none (some BASE58)) =
      Except.ok (EncodedVerKey.new ['b'] none (some BASE58)) ∧
    ¬((EncodedVerKey.new ['b'] none none).enc = BASE58) ∧
    EncodedVerKey.as_base58 (EncodedVerKey.new ['b'] none none) =
      Except.error unsupportedVerkeyFormat :=
  ⟨by decide,
    (claim_C3_as_base58 (EncodedVerKey.new ['b'] none (some BASE58))).1 (by decide),
    by decide,
    (claim_C3_as_base58 (EncodedVerKey.new ['b'] none none)).2 (by decide)⟩

/-- C6: `VerKey.validate` succeeds exactly when the byte length is 32 and
otherwise fails with the invalid-length error; and for every
`EncodedVerKey` whose text decodes under its encoding, `validate`
succeeds exactly when the decoded length is 32. -/
theorem claim_C6_validate (v : VerKey) (ek : EncodedVerKey) (bs : List Nat) :
    (v.key_bytes.length = 32 → v.validate = Except.ok ()) ∧
    (¬(v.key_bytes.length = 32) → v.validate = Except.error invalidKeyLength) ∧
    (ek.key_bytes = Except.ok bs →
      (ek.validate = Except.ok () ↔ bs.length = 32)) := by
  refine ⟨?_, ?_, ?_⟩
  · intro h
    simp only [VerKey.validate]
    rw [if_pos h]
  · intro h
    simp only [VerKey.validate]
    rw [if_neg h]
  · intro h
    simp only [EncodedVerKey.validate, h]
    by_cases hl : bs.length = 32
    · simp [hl]
    · simp only [if_neg hl]
      constructor
      · intro hc; cases hc
      · intro hc; exact absurd hc hl

/-- Witness for C6 at a 32-byte `VerKey` and a `BASE58` key of 32 `'1'`
characters (decoding to 32 zero bytes). -/
theorem claim_C6_validate_witness :
    (VerKey.new (List.replicate 32 5) none).key_bytes.length = 32 ∧
    (VerKey.new (List.replicate 32 5) none).validate = Except.ok () ∧
    (EncodedVerKey.new (List.replicate 32 '1') none (some BASE58)).key_bytes =
      Except.ok (List.replicate 32 0) ∧
    ((EncodedVerKey.new (List.replicate 32 '1') none (some BASE58)).validate =
        Except.ok () ↔ (List.replicate (32 : Nat) (0 : Nat)).length = 32) :=
  ⟨by decide,
    (claim_C6_validate (VerKey.new (List.replicate 32 5) none)
      (EncodedVerKey.new (List.replicate 32 '1') none (some BASE58))
      (List.replicate 32 0)).1 (by decide),
    by decide,
    (claim_C6_validate (VerKey.new (List.replicate 32 5) none)
      (EncodedVerKey.new (List.replicate 32 '1') none (some BASE58))
      (List.replicate 32 0)).2.2 (by decide)⟩

/-- C7 counterexample: for the `ED25519` signing key built by `new` from
an empty byte buffer, `public_key` does not return a `VerKey` — the slice
`&key[32..]` is out of range and the code panics (`none`). -/
theorem claim_C7_counterexample :
    SignKey.public_key (SignKey.new [] (some ED25519)) = none := by
  decide

/-- C7 amended: for every `SignKey` holding at least 32 bytes,
`public_key` returns, when the algorithm is `ED25519`, a new `VerKey`
containing exactly the bytes from index 32 to the end; for every other
algorithm tag it fails with the unsupported-algorithm error. -/
theorem claim_C7_public_key (sk : SignKey) :
    (sk.alg = ED25519 → 32 ≤ sk.key.length →
      sk.public_key =
        some (Except.ok (VerKey.new (sk.key.drop 32) (some sk.alg)))) ∧
    (¬(sk.alg = ED25519) →
      sk.public_key = some (Except.error unsupportedKeyType)) := by
  constructor
  · intro ha hl
    simp only [SignKey.public_key]
    rw [if_pos ha]
    simp only [sliceFrom]
    rw [if_pos hl]
    rfl
  · intro ha
    simp only [SignKey.public_key]
    rw [if_neg ha]

/-- Witness for C7 (amended) at a 64-byte `ED25519` key and a one-byte
`"x"`-tagged key. -/
theorem claim_C7_public_key_witness :
    (SignKey.new (List.replicate 64 7) (some ED25519)).alg = ED25519 ∧
    32 ≤ (SignKey.new (List.replicate 64 7) (some ED25519)).key.length ∧
    SignKey.public_key (SignKey.new (List.replicate 64 7) (some ED25519)) =
      some (Except.ok (VerKey.new ((List.replicate 64 7).drop 32)
        (some ED25519))) ∧
    ¬((SignKey.new [9] (some ['x'])).alg = ED25519) ∧
    SignKey.public_key (SignKey.new [9] (some ['x'])) =
      some (Except.error unsupportedKeyType) :=
  ⟨by decide, by decide,
    (claim_C7_public_key (SignKey.new (List.replicate 64 7) (some ED25519))).1
      (by decide) (by decide),
    by decide,
    (claim_C7_public_key (SignKey.new [9] (some ['x']))).2 (by decide)⟩

/-- C8: `long_form` is always the text, a colon, then the algorithm tag,
even for the default tag; `Display` renders the text alone when the
algorithm is the default tag and the long form otherwise. -/
theorem claim_C8_long_form_display (k : EncodedVerKey) :
    k.long_form = k.key ++ ':' :: k.alg ∧
    (k.alg = keyTypeDefault → k.display = k.key) ∧
    (¬(k.alg = keyTypeDefault) → k.display = k.long_form) := by
  refine ⟨rfl, ?_, ?_⟩
  · intro h
    simp only [EncodedVerKey.display]
    rw [if_pos h]
  · intro h
    simp only [EncodedVerKey.display]
    rw [if_neg h]

/-- Witness for C8 at a default-tagged key and an `ED25519`-tagged key. -/
theorem claim_C8_long_form_display_witness :
    (EncodedVerKey.new ['k'] none none).alg = keyTypeDefault ∧
    (EncodedVerKey.new ['k'] none none).display = ['k'] ∧
    ¬((EncodedVerKey.new ['k'] (some ED25519) none).alg = keyTypeDefault) ∧
    (EncodedVerKey.new ['k'] (some ED25519) none).display =
      (EncodedVerKey.new ['k'] (some ED25519) none).long_form :=
  ⟨by decide,
    (claim_C8_long_form_display (EncodedVerKey.new ['k'] none none)).2.1
      (by decide),
    by decide,
    (claim_C8_long_form_display (EncodedVerKey.new ['k'] (some ED25519) none)).2.2
      (by decide)⟩

/-- C9: disposal (`drop`, which invokes `zeroize`) unconditionally leaves
the retained buffer all-zero — the key buffer becomes a same-length run
of zero bytes (zero characters for the textual key) — and resets the
algorithm tag (and, for `EncodedVerKey`, the encoding tag) to the
default tag. -/
theorem claim_C9_zeroize_on_drop (sk : SignKey) (v : VerKey)
    (ek : EncodedVerKey) :
    sk.dispose.key = List.replicate sk.key.length 0 ∧
    sk.dispose.alg = keyTypeDefault ∧
    v.dispose.key = List.replicate v.key.length 0 ∧
    v.dispose.alg = keyTypeDefault ∧
    ek.dispose.key = List.replicate ek.key.length (Char.ofNat 0) ∧
    ek.dispose.alg = keyTypeDefault ∧
    ek.dispose.enc = keyEncodingDefault := by
  refine ⟨?_, rfl, ?_, rfl, ?_, rfl, rfl⟩
  · simp [SignKey.dispose, SignKey.zeroize, List.map_const']
  · simp [VerKey.dispose, VerKey.zeroize, List.map_const']
  · simp [EncodedVerKey.dispose, EncodedVerKey.zeroize, List.map_const']

/-- C10: the slice at index 32 taken by `public_key` is in range exactly
when the key holds at least 32 bytes, and for an `ED25519` `SignKey`
built by `new` from fewer than 32 bytes the panic branch (`none`) of the
embedding is reached. -/
theorem claim_C10_public_key_precondition (bs : List Nat) :
    ((sliceFrom bs 32).isSome ↔ 32 ≤ bs.length) ∧
    ((SignKey.public_key (SignKey.new bs (some ED25519))).isSome ↔
      32 ≤ bs.length) ∧
    (bs.length < 32 →
      SignKey.public_key (SignKey.new bs (some ED25519)) = none) := by
  have hs : ∀ h : 32 ≤ bs.length, (sliceFrom bs 32).isSome := by
    intro h
    simp [sliceFrom, h]
  have hn : ¬(32 ≤ bs.length) → sliceFrom bs 32 = none := by
    intro h
    simp [sliceFrom, h]
  refine ⟨?_, ?_, ?_⟩
  · constructor
    · intro h
      by_contra hc
      rw [hn hc] at h
      cases h
    · exact hs
  · simp only [SignKey.public_key, SignKey.new, Option.getD, if_true]
    constructor
    · intro h
      by_contra hc
      rw [hn hc] at h
      cases h
    · intro h
      rw [Option.isSome_map']
      exact hs h
  · intro h
    have hc : ¬(32 ≤ bs.length) := by omega
    simp only [SignKey.public_key, SignKey.new, Option.getD, if_true]
    rw [hn hc]
    rfl

/-- Witness for C10 at the three-byte key `[1, 2, 3]`. -/
theorem claim_C10_public_key_precondition_witness :
    ([1, 2, 3] : List Nat).length < 32 ∧
    SignKey.public_key (SignKey.new [1, 2, 3] (some ED25519)) = none :=
  ⟨by decide, (claim_C10_public_key_precondition [1, 2, 3]).2.2 (by decide)⟩
